import Mathlib

/-!
Shallow embedding of src/vlc_db.py (VlcDatabase, version 1.2.0).

The SQLite database is modelled as an explicit state: each table is a list
of rows in rowid (insertion) order, together with a flag recording whether
the table exists and the list of its column names (needed because the
current schema of series_settings has no outro_start column, while the
legacy 1.0.0 schema had one, and several statements still reference it).
A statement that references a missing table or column raises
sqlite3.OperationalError in Python; here the operation takes the same
except-branch: it returns false and leaves the state unchanged (the
transaction is rolled back).

Python integers are Int; NULL-able columns are Option; Python None results
are Option.none. Dictionaries are association lists with first-match
lookup and in-place overwrite on key collision, mirroring CPython dicts.
-/

/-- Row of the playback table, as created by init_db in src/vlc_db.py. -/
structure PlaybackRow where
  filename : String
  position : Option Int
  duration : Option Int
  percent : Option Int
  status : Option String
  series_pfx : Option String
  series_suffix : Option String
  descr : Option String
  outro_triggered : Int
deriving DecidableEq

/-- Row of the series_settings table. The outro_start field is only
meaningful on stores whose column list contains "outro_start" (legacy
1.0.0 schema); the current CREATE TABLE does not produce that column. -/
structure SeriesRow where
  series_pfx : String
  series_suffix : String
  autoplay : Int
  skip_intro : Int
  skip_outro : Int
  intro_start : Option Int
  intro_end : Option Int
  credits_duration : Option Int
  descr : Option String
  outro_start : Option Int
deriving DecidableEq

/-- The whole database file: both tables with their schema state. -/
structure Store where
  playbackExists : Bool
  playbackCols : List String
  playback : List PlaybackRow
  seriesExists : Bool
  seriesCols : List String
  series : List SeriesRow
deriving DecidableEq

/-- Column list of the playback CREATE TABLE statement in init_db. -/
def playbackCreateCols : List String :=
  ["filename", "position", "duration", "percent", "status",
   "series_prefix", "series_suffix", "description", "outro_triggered"]

/-- Column list of the series_settings CREATE TABLE statement in init_db. -/
def seriesCreateCols : List String :=
  ["series_prefix", "series_suffix", "autoplay", "skip_intro", "skip_outro",
   "intro_start", "intro_end", "credits_duration", "description"]

/-- Does the column list provide every column a statement references? -/
def hasCols (cols : List String) (needed : List String) : Bool :=
  needed.all (fun c => cols.contains c)

/-- Guard for a playback statement: table exists and referenced columns do. -/
def pbOk (st : Store) (needed : List String) : Bool :=
  st.playbackExists && hasCols st.playbackCols needed

/-- Guard for a series_settings statement. -/
def ssOk (st : Store) (needed : List String) : Bool :=
  st.seriesExists && hasCols st.seriesCols needed

/-- VlcDatabase._calculate_status: watched for 90 and above, partial for
1 to 89, None otherwise. -/
def calculate_status (percent : Int) : Option String :=
  if percent ≥ 90 then some "watched"
  else if percent ≥ 1 then some "partial"
  else none

/-- A database with no tables at all (a nonexistent or empty file). -/
def blankStore : Store :=
  { playbackExists := false, playbackCols := [], playback := [],
    seriesExists := false, seriesCols := [], series := [] }

/-- init_db step 1: CREATE TABLE IF NOT EXISTS playback. -/
def createPlayback (st : Store) : Store :=
  if st.playbackExists then st
  else { st with playbackExists := true, playbackCols := playbackCreateCols,
                 playback := [] }

/-- init_db step 2: probe outro_triggered, on OperationalError run
ALTER TABLE playback ADD COLUMN outro_triggered INTEGER DEFAULT 0
(existing rows then report the default 0). -/
def migratePlayback (st : Store) : Store :=
  if "outro_triggered" ∈ st.playbackCols then st
  else { st with playbackCols := st.playbackCols ++ ["outro_triggered"],
                 playback := st.playback.map (fun r => { r with outro_triggered := 0 }) }

/-- init_db step 3: CREATE TABLE IF NOT EXISTS series_settings. -/
def createSeries (st : Store) : Store :=
  if st.seriesExists then st
  else { st with seriesExists := true, seriesCols := seriesCreateCols,
                 series := [] }

/-- init_db step 4: probe credits_duration; when missing, both the branch
that finds a legacy outro_start column and the branch that does not run the
same ALTER TABLE series_settings ADD COLUMN credits_duration INTEGER
DEFAULT NULL (existing rows then report NULL). -/
def migrateSeries (st : Store) : Store :=
  if "credits_duration" ∈ st.seriesCols then st
  else { st with seriesCols := st.seriesCols ++ ["credits_duration"],
                 series := st.series.map (fun r => { r with credits_duration := none }) }

/-- VlcDatabase.init_db: the two CREATE TABLE IF NOT EXISTS statements and
the two probe-and-ALTER migrations, in source order; returns True. -/
def init_db (st : Store) : Store × Bool :=
  (migrateSeries (createSeries (migratePlayback (createPlayback st))), true)

/-- The store produced by running init_db on a blank database file. -/
def freshStore : Store := (init_db blankStore).1

/-- Upsert into the playback table, mirroring INSERT ... ON CONFLICT(filename)
DO UPDATE: the first row with the conflicting key is updated in place (its
rowid, hence its position in insertion order, is kept); otherwise the fresh
row is appended with the next rowid. -/
def upsertPlayback (rows : List PlaybackRow) (f : String)
    (upd : PlaybackRow → PlaybackRow) (freshRow : PlaybackRow) : List PlaybackRow :=
  match rows with
  | [] => [freshRow]
  | r :: rs =>
    if r.filename = f then upd r :: rs
    else r :: upsertPlayback rs f upd freshRow

/-- VlcDatabase.save_playback: computes status from percent, then
INSERT INTO playback (filename, position, duration, percent, status,
series_prefix, series_suffix) ... ON CONFLICT(filename) DO UPDATE SET those
six non-key columns. The insert leaves description at its NULL default and
outro_triggered at its default 0; the update touches neither. -/
def save_playback (st : Store) (filename : String) (position duration percent : Int)
    (series_pfx series_suffix : Option String) : Store × Bool :=
  let status := calculate_status percent
  let upd : PlaybackRow → PlaybackRow := fun r =>
    { r with position := some position, duration := some duration,
             percent := some percent, status := status,
             series_pfx := series_pfx, series_suffix := series_suffix }
  let freshRow : PlaybackRow :=
    { filename := filename, position := some position, duration := some duration,
      percent := some percent, status := status, series_pfx := series_pfx,
      series_suffix := series_suffix, descr := none, outro_triggered := 0 }
  if pbOk st ["filename", "position", "duration", "percent", "status",
              "series_prefix", "series_suffix"] then
    ({ st with playback := upsertPlayback st.playback filename upd freshRow }, true)
  else (st, false)

/-- VlcDatabase.set_outro_triggered: INSERT INTO playback (filename,
outro_triggered) VALUES (?, ?) ON CONFLICT(filename) DO UPDATE SET
outro_triggered = ?. A freshly created row has every other non-key column
at its default: NULL for position, duration, percent, status, the series
columns and description. -/
def set_outro_triggered (st : Store) (filename : String) (triggered : Int) : Store × Bool :=
  let upd : PlaybackRow → PlaybackRow := fun r => { r with outro_triggered := triggered }
  let freshRow : PlaybackRow :=
    { filename := filename, position := none, duration := none, percent := none,
      status := none, series_pfx := none, series_suffix := none, descr := none,
      outro_triggered := triggered }
  if pbOk st ["filename", "outro_triggered"] then
    ({ st with playback := upsertPlayback st.playback filename upd freshRow }, true)
  else (st, false)

/-- VlcDatabase.get_playback_percent: SELECT percent FROM playback WHERE
filename = ?; returns the fetched percent value when a row exists (which is
the Python value None when the stored percent is NULL), the integer 0 when
no row exists, and 0 on a database error. -/
def get_playback_percent (st : Store) (filename : String) : Option Int :=
  if pbOk st ["percent", "filename"] then
    match st.playback.find? (fun r => r.filename == filename) with
    | some r => r.percent
    | none => some 0
  else some 0

/-- VlcDatabase.series_settings_exist: SELECT COUNT(*) FROM series_settings
WHERE series_prefix = ? AND series_suffix = ?; count positive. On a
database error the except branch returns False. -/
def series_settings_exist (st : Store) (pfx sfx : String) : Bool :=
  if ssOk st ["series_prefix", "series_suffix"] then
    st.series.any (fun r => r.series_pfx == pfx && r.series_suffix == sfx)
  else false

/-- VlcDatabase.set_intro_markers: rejects negative start or end and
end not greater than start before touching the database; then either
INSERT INTO series_settings (series_prefix, series_suffix, autoplay,
skip_intro, skip_outro, intro_start, intro_end) VALUES (?, ?, 0, 0, 0, ?, ?)
when no row exists, or UPDATE series_settings SET intro_start = ?,
intro_end = ? for the keyed row. -/
def set_intro_markers (st : Store) (pfx sfx : String) (s e : Int) : Store × Bool :=
  if s < 0 ∨ e < 0 then (st, false)
  else if e ≤ s then (st, false)
  else if series_settings_exist st pfx sfx then
    if ssOk st ["intro_start", "intro_end", "series_prefix", "series_suffix"] then
      ({ st with series := st.series.map (fun r =>
          if r.series_pfx == pfx && r.series_suffix == sfx then
            { r with intro_start := some s, intro_end := some e }
          else r) }, true)
    else (st, false)
  else
    if ssOk st ["series_prefix", "series_suffix", "autoplay", "skip_intro",
                "skip_outro", "intro_start", "intro_end"] then
      ({ st with series := st.series ++
          [{ series_pfx := pfx, series_suffix := sfx, autoplay := 0, skip_intro := 0,
             skip_outro := 0, intro_start := some s, intro_end := some e,
             credits_duration := none, descr := none, outro_start := none }] }, true)
    else (st, false)

/-- VlcDatabase.set_outro_marker: rejects a negative start; then either
INSERT INTO series_settings (series_prefix, series_suffix, autoplay,
skip_intro, skip_outro, outro_start) VALUES (?, ?, 0, 0, 0, ?) when no row
exists, or UPDATE series_settings SET outro_start = ? for the keyed row.
Both statements name the outro_start column, which the current CREATE TABLE
does not produce, so on a store with the current schema both raise
sqlite3.OperationalError (no such column) and the except branch returns
False with the transaction rolled back. -/
def set_outro_marker (st : Store) (pfx sfx : String) (s : Int) : Store × Bool :=
  if s < 0 then (st, false)
  else if series_settings_exist st pfx sfx then
    if ssOk st ["outro_start", "series_prefix", "series_suffix"] then
      ({ st with series := st.series.map (fun r =>
          if r.series_pfx == pfx && r.series_suffix == sfx then
            { r with outro_start := some s }
          else r) }, true)
    else (st, false)
  else
    if ssOk st ["series_prefix", "series_suffix", "autoplay", "skip_intro",
                "skip_outro", "outro_start"] then
      ({ st with series := st.series ++
          [{ series_pfx := pfx, series_suffix := sfx, autoplay := 0, skip_intro := 0,
             skip_outro := 0, intro_start := none, intro_end := none,
             credits_duration := none, descr := none, outro_start := some s }] }, true)
    else (st, false)

/-- VlcDatabase.clear_skip_markers: one UPDATE statement per marker_type;
the intro statement touches intro_start and intro_end, the outro statement
touches the legacy outro_start column, the all statement touches all three;
any other marker_type is rejected with no statement executed. The outro and
all statements reference outro_start and therefore fail on a store with the
current schema. -/
def clear_skip_markers (st : Store) (pfx sfx : String) (marker_type : String) : Store × Bool :=
  if marker_type == "intro" then
    if ssOk st ["intro_start", "intro_end", "series_prefix", "series_suffix"] then
      ({ st with series := st.series.map (fun r =>
          if r.series_pfx == pfx && r.series_suffix == sfx then
            { r with intro_start := none, intro_end := none }
          else r) }, true)
    else (st, false)
  else if marker_type == "outro" then
    if ssOk st ["outro_start", "series_prefix", "series_suffix"] then
      ({ st with series := st.series.map (fun r =>
          if r.series_pfx == pfx && r.series_suffix == sfx then
            { r with outro_start := none }
          else r) }, true)
    else (st, false)
  else if marker_type == "all" then
    if ssOk st ["intro_start", "intro_end", "outro_start", "series_prefix", "series_suffix"] then
      ({ st with series := st.series.map (fun r =>
          if r.series_pfx == pfx && r.series_suffix == sfx then
            { r with intro_start := none, intro_end := none, outro_start := none }
          else r) }, true)
    else (st, false)
  else (st, false)

/-- Last path component: what full_path.split with separator slash, last
element, computes in Python (the text after the last slash, or the whole
string when it has no slash). The accumulator holds the characters of the
current component. -/
def basenameAux : List Char → List Char → List Char
  | [], acc => acc
  | c :: cs, acc => if c = '/' then basenameAux cs [] else basenameAux cs (acc ++ [c])

/-- Basename of a stored path, as computed in get_playback_batch. -/
def basename (s : String) : String := ⟨basenameAux s.data []⟩

/-- A Python dict over string keys: association list in insertion order;
assignment overwrites in place when the key is present, else appends. -/
def dictSet (d : List (String × Option Int)) (k : String) (v : Option Int) :
    List (String × Option Int) :=
  if d.any (fun kv => kv.1 == k) then
    d.map (fun kv => if kv.1 == k then (k, v) else kv)
  else d ++ [(k, v)]

/-- Python membership test on the dict. -/
def dictHasKey (d : List (String × Option Int)) (k : String) : Bool :=
  d.any (fun kv => kv.1 == k)

/-- Python dict lookup (keys are unique, so first match). -/
def dictGet (d : List (String × Option Int)) (k : String) : Option (Option Int) :=
  (d.find? (fun kv => kv.1 == k)).map (fun kv => kv.2)

/-- VlcDatabase.get_playback_batch: joins directory and each filename with a
slash, fetches filename and percent for every stored row whose filename is
among the joined paths, keys the result dict by the basename of the fetched
path, then adds a 0 entry for every requested filename still missing. An
empty request returns an empty dict; a database error returns a dict with 0
for every requested filename. -/
def get_playback_batch (st : Store) (directory : String) (filenames : List String) :
    List (String × Option Int) :=
  if filenames.isEmpty then []
  else if pbOk st ["filename", "percent"] then
    let full_paths := filenames.map (fun f => directory ++ "/" ++ f)
    let matched := st.playback.filter (fun r => full_paths.contains r.filename)
    let d := matched.foldl (fun d r => dictSet d (basename r.filename) r.percent) []
    filenames.foldl (fun d f => if dictHasKey d f then d else d ++ [(f, some 0)]) d
  else filenames.foldl (fun d f => dictSet d f (some 0)) []

/-- COALESCE of a nullable suffix with the empty string. -/
def coalesceSuffix (o : Option String) : String := o.getD ""

/-- The rows of playback (in rowid order) matching one series version:
series_prefix equal to the given prefix and normalized series_suffix equal
to the given suffix, as in the p2 and p3 subqueries of find_other_versions. -/
def versionRows (rows : List PlaybackRow) (pfx sfx : String) : List PlaybackRow :=
  rows.filter (fun r => r.series_pfx == some pfx && coalesceSuffix r.series_suffix == sfx)

/-- Scalar subquery SELECT filename ... ORDER BY rowid DESC LIMIT 1. -/
def last_filename (rows : List PlaybackRow) (pfx sfx : String) : Option String :=
  (versionRows rows pfx sfx).getLast?.map (fun r => r.filename)

/-- SQL MAX over a column: NULL values are ignored, NULL when nothing
remains. -/
def sqlMax : List Int → Option Int
  | [] => none
  | p :: ps =>
    match sqlMax ps with
    | none => some p
    | some m => some (max p m)

/-- Scalar subquery SELECT MAX(percent) over one series version. -/
def max_percent (rows : List PlaybackRow) (pfx sfx : String) : Option Int :=
  sqlMax ((versionRows rows pfx sfx).filterMap (fun r => r.percent))

/-- VlcDatabase.find_other_versions: SELECT DISTINCT over the rows sharing
the prefix whose normalized suffix differs from the normalized current one,
emitting for each such row its normalized suffix, the last filename of that
version in rowid order, and the maximum percent of that version; DISTINCT
collapses the duplicated tuples. A database error returns the empty list. -/
def find_other_versions (st : Store) (pfx : String) (current_suffix : Option String) :
    List (String × Option String × Option Int) :=
  if pbOk st ["series_prefix", "series_suffix", "filename", "percent"] then
    ((st.playback.filter (fun r =>
        r.series_pfx == some pfx &&
        !(coalesceSuffix r.series_suffix == coalesceSuffix current_suffix))).map
      (fun r => (coalesceSuffix r.series_suffix,
                 last_filename st.playback pfx (coalesceSuffix r.series_suffix),
                 max_percent st.playback pfx (coalesceSuffix r.series_suffix)))).dedup
  else []

/-- C1 counterexample: the claim quantifies over every integer percent and
states that the status is empty if and only if the percent is 0, but
_calculate_status returns None at percent -1 as well, so the only-if
direction fails at -1. -/
theorem calculate_status_zero_iff_fails : calculate_status (-1) = none ∧ ((-1 : Int) = 0 → False) := by
  decide

/-- C1 (amended): for every integer percent p, _calculate_status returns
watched if and only if p is at least 90, partial if and only if p is
between 1 and 89, and None if and only if p is at most 0 (on the documented
0 to 100 range this coincides with p = 0). -/
theorem calculate_status_spec (p : Int) :
    (calculate_status p = some "watched" ↔ 90 ≤ p) ∧
    (calculate_status p = some "partial" ↔ 1 ≤ p ∧ p ≤ 89) ∧
    (calculate_status p = none ↔ p ≤ 0) := by
  unfold calculate_status
  split_ifs with h1 h2 <;> refine ⟨?_, ?_, ?_⟩ <;> simp_all <;> omega

/-- The series_settings row created by set_intro_markers on a fresh store
with prefix p, suffix s, intro 10 to 20. -/
def introRow : SeriesRow :=
  { series_pfx := "p", series_suffix := "s", autoplay := 0, skip_intro := 0,
    skip_outro := 0, intro_start := some 10, intro_end := some 20,
    credits_duration := none, descr := none, outro_start := none }

/-- A freshly initialized store after set_intro_markers with 10 and 20. -/
def introStore : Store := (set_intro_markers freshStore "p" "s" 10 20).1

/-- C3: on a freshly initialized store, setIntroMarkers(p, s, 10, 20)
succeeds and stores intro_start 10 and intro_end 20, but the CREATE TABLE
statement of init_db produces no outro_start column, so the following
setOutroMarker(p, s, 300) hits a no-such-column error on its UPDATE
statement, reports failure and leaves the store unchanged, instead of
storing outro_start 300 as the claim states. -/
theorem set_outro_marker_fails_on_fresh_store :
    (set_intro_markers freshStore "p" "s" 10 20).2 = true ∧
    introStore.series = [introRow] ∧
    freshStore.seriesCols.contains "outro_start" = false ∧
    set_outro_marker introStore "p" "s" 300 = (introStore, false) := by
  decide

/-- C4: on a store with the current schema holding the series_settings row
(p, s), clear_skip_markers clears intro_start and intro_end for scope
intro and succeeds, and fails without mutation for an unknown scope, as the
claim states; but for scopes outro and all its UPDATE statements reference
the legacy outro_start column, which the current CREATE TABLE does not
produce, so both hit a no-such-column error and fail without mutation
instead of succeeding. -/
theorem clear_skip_markers_outro_fails_on_fresh_store :
    clear_skip_markers introStore "p" "s" "intro" =
      ({ introStore with series :=
          [{ introRow with intro_start := none, intro_end := none }] }, true) ∧
    clear_skip_markers introStore "p" "s" "outro" = (introStore, false) ∧
    clear_skip_markers introStore "p" "s" "all" = (introStore, false) ∧
    clear_skip_markers introStore "p" "s" "bogus" = (introStore, false) := by
  decide

/-- C7: set_outro_triggered on a fresh store creates a playback row whose
percent column is NULL, and get_playback_percent then returns that NULL
(Python None) rather than an integer, contradicting its declared int return
type; with no row at all it does return the integer 0. -/
theorem get_playback_percent_none_after_outro_triggered :
    (set_outro_triggered freshStore "f.mkv" 1).2 = true ∧
    (set_outro_triggered freshStore "f.mkv" 1).1.playback =
      [{ filename := "f.mkv", position := none, duration := none, percent := none,
         status := none, series_pfx := none, series_suffix := none, descr := none,
         outro_triggered := 1 }] ∧
    get_playback_percent (set_outro_triggered freshStore "f.mkv" 1).1 "f.mkv" = none ∧
    get_playback_percent freshStore "f.mkv" = some 0 := by
  decide

theorem upsertPlayback_self (rows : List PlaybackRow) (f : String)
    (upd : PlaybackRow → PlaybackRow) (fr : PlaybackRow)
    (hf : fr.filename = f) (hname : ∀ r, (upd r).filename = r.filename)
    (hidem : ∀ r, upd (upd r) = upd r) (hfr : upd fr = fr) :
    upsertPlayback (upsertPlayback rows f upd fr) f upd fr = upsertPlayback rows f upd fr := by
  induction rows with
  | nil => simp [upsertPlayback, hf, hfr]
  | cons r rs ih =>
    by_cases h : r.filename = f
    · simp [upsertPlayback, h, hname, hidem]
    · simp [upsertPlayback, h, ih]

theorem upsertPlayback_filenames (rows : List PlaybackRow) (f : String)
    (upd : PlaybackRow → PlaybackRow) (fr : PlaybackRow)
    (hf : fr.filename = f) (hname : ∀ r, (upd r).filename = r.filename) :
    (upsertPlayback rows f upd fr).map (fun r => r.filename) =
      if f ∈ rows.map (fun r => r.filename) then rows.map (fun r => r.filename)
      else rows.map (fun r => r.filename) ++ [f] := by
  induction rows with
  | nil => simp [upsertPlayback, hf]
  | cons r rs ih =>
    by_cases h : r.filename = f
    · simp [upsertPlayback, h, hname]
    · have h3 : ¬ f = r.filename := fun hh => h hh.symm
      simp only [upsertPlayback, if_neg h, List.map_cons, ih]
      by_cases h2 : f ∈ rs.map (fun r => r.filename) <;> simp [h2, h3]

/-- C2: save_playback is an idempotent upsert keyed by filename. First,
calling it twice with identical arguments yields the same store (and
result) as calling it once. Second, on a fresh store the sequence
savePlayback(a.mkv, 10, 100, 10) then savePlayback(a.mkv, 50, 100, 50)
leaves exactly one row for a.mkv with position 50, percent 50 and status
partial. Third, it preserves key uniqueness: when every filename occurs at
most once in the table, the same holds after any save_playback, so at most
one playback row per filename ever exists. -/
theorem save_playback_idempotent_upsert :
    (∀ st f pos dur pct pfx sfx,
      save_playback (save_playback st f pos dur pct pfx sfx).1 f pos dur pct pfx sfx =
        save_playback st f pos dur pct pfx sfx) ∧
    ((save_playback (save_playback freshStore "a.mkv" 10 100 10 none none).1
        "a.mkv" 50 100 50 none none).1.playback =
      [{ filename := "a.mkv", position := some 50, duration := some 100,
         percent := some 50, status := some "partial", series_pfx := none,
         series_suffix := none, descr := none, outro_triggered := 0 }]) ∧
    (∀ st f pos dur pct pfx sfx,
      (st.playback.map (fun r => r.filename)).Nodup →
      ((save_playback st f pos dur pct pfx sfx).1.playback.map (fun r => r.filename)).Nodup) := by
  refine ⟨?_, by decide, ?_⟩
  · intro st f pos dur pct pfx sfx
    have hpb : ∀ rows cols, pbOk { st with playback := rows } cols = pbOk st cols :=
      fun rows cols => rfl
    by_cases hg : pbOk st ["filename", "position", "duration", "percent", "status",
                           "series_prefix", "series_suffix"] = true
    · simp only [save_playback, hpb, hg, if_true, Prod.mk.injEq, and_true, Store.mk.injEq,
                 true_and]
      exact upsertPlayback_self _ _ _ _ rfl (fun r => rfl) (fun r => rfl) rfl
    · simp [save_playback, hg]
  · intro st f pos dur pct pfx sfx hnd
    by_cases hg : pbOk st ["filename", "position", "duration", "percent", "status",
                           "series_prefix", "series_suffix"] = true
    · simp only [save_playback, hg, if_true]
      rw [upsertPlayback_filenames st.playback f _ _ (by rfl) (fun r => by rfl)]
      by_cases h2 : f ∈ st.playback.map (fun r => r.filename)
      · simpa [h2] using hnd
      · simp only [h2, if_false]
        exact List.Nodup.append hnd (List.nodup_singleton f)
          (by simpa using fun hx => h2 hx)
    · simpa [save_playback, hg] using hnd

/-- C2 witness: key uniqueness applied on the fresh (empty) store. -/
theorem save_playback_idempotent_upsert_witness :
    ((save_playback freshStore "x.mkv" 1 2 3 none none).1.playback.map
      (fun r => r.filename)).Nodup :=
  save_playback_idempotent_upsert.2.2 freshStore "x.mkv" 1 2 3 none none (by decide)

theorem map_id_of_mem_eq {α : Type} (l : List α) (g : α → α) (h : ∀ x ∈ l, g x = x) :
    l.map g = l := by
  induction l with
  | nil => rfl
  | cons a t ih => simp [h a (by simp), ih (fun x hx => h x (by simp [hx]))]

theorem upsertPlayback_existing (rows : List PlaybackRow) (f : String)
    (upd : PlaybackRow → PlaybackRow) (fr : PlaybackRow)
    (hmem : ∃ r ∈ rows, r.filename = f)
    (hnd : (rows.map (fun r => r.filename)).Nodup) :
    upsertPlayback rows f upd fr =
      rows.map (fun r => if r.filename = f then upd r else r) := by
  induction rows with
  | nil => simp at hmem
  | cons r rs ih =>
    simp only [List.map_cons, List.nodup_cons] at hnd
    by_cases h : r.filename = f
    · simp only [upsertPlayback, if_pos h, List.map_cons, if_pos h, List.cons.injEq, true_and]
      refine (map_id_of_mem_eq rs _ (fun q hq => ?_)).symm
      have hqf : q.filename ≠ f := by
        intro hc
        exact hnd.1 (by exact List.mem_map.mpr ⟨q, hq, by rw [hc, h]⟩)
      simp [hqf]
    · have hmem2 : ∃ q ∈ rs, q.filename = f := by
        rcases hmem with ⟨q, hq, hqf⟩
        rcases List.mem_cons.mp hq with rfl | hq2
        · exact absurd hqf h
        · exact ⟨q, hq2, hqf⟩
      simp only [upsertPlayback, if_neg h, List.map_cons, if_neg h, List.cons.injEq, true_and]
      exact ih hmem2 hnd.2

/-- C10: when save_playback hits an existing row (same filename, keys
unique), the stored table becomes the old table with only that row
replaced, and the replacement changes only position, duration, percent,
status, series_prefix and series_suffix; in particular the row's
outro_triggered flag and description are carried over unchanged, not reset
to their defaults. -/
theorem save_playback_preserves_untouched_columns (st : Store) (f : String)
    (pos dur pct : Int) (pfx sfx : Option String) (r : PlaybackRow)
    (hr : r ∈ st.playback) (hf : r.filename = f)
    (hnd : (st.playback.map (fun q => q.filename)).Nodup)
    (hg : pbOk st ["filename", "position", "duration", "percent", "status",
                   "series_prefix", "series_suffix"] = true) :
    (save_playback st f pos dur pct pfx sfx).1.playback =
      st.playback.map (fun q =>
        if q.filename = f then
          { q with position := some pos, duration := some dur, percent := some pct,
                   status := calculate_status pct, series_pfx := pfx, series_suffix := sfx }
        else q) ∧
    ∀ q ∈ (save_playback st f pos dur pct pfx sfx).1.playback, q.filename = f →
      ∃ p ∈ st.playback, p.filename = f ∧ q.outro_triggered = p.outro_triggered ∧
        q.descr = p.descr := by
  have hmain : (save_playback st f pos dur pct pfx sfx).1.playback =
      st.playback.map (fun q =>
        if q.filename = f then
          { q with position := some pos, duration := some dur, percent := some pct,
                   status := calculate_status pct, series_pfx := pfx, series_suffix := sfx }
        else q) := by
    simp only [save_playback, hg, if_true]
    exact upsertPlayback_existing st.playback f _ _ ⟨r, hr, hf⟩ hnd
  refine ⟨hmain, ?_⟩
  intro q hq hqf
  rw [hmain] at hq
  rcases List.mem_map.mp hq with ⟨p, hp, hpq⟩
  by_cases hpf : p.filename = f
  · refine ⟨p, hp, hpf, ?_, ?_⟩ <;> simp [if_pos hpf] at hpq <;> rw [← hpq]
  · rw [if_neg hpf] at hpq
    exact absurd (hpq ▸ hqf) hpf

/-- Store holding one playback row for a.mkv with percent 10. -/
def storeA : Store := (save_playback freshStore "a.mkv" 10 100 10 none none).1

/-- The playback row stored in storeA. -/
def rowA : PlaybackRow :=
  { filename := "a.mkv", position := some 10, duration := some 100, percent := some 10,
    status := some "partial", series_pfx := none, series_suffix := none, descr := none,
    outro_triggered := 0 }

/-- C10 witness: the frame condition applied on a concrete store. -/
theorem save_playback_preserves_untouched_columns_witness :
    (save_playback storeA "a.mkv" 50 100 50 none none).1.playback =
      storeA.playback.map (fun q =>
        if q.filename = "a.mkv" then
          { q with position := some 50, duration := some 100, percent := some 50,
                   status := calculate_status 50, series_pfx := none, series_suffix := none }
        else q) :=
  (save_playback_preserves_untouched_columns storeA "a.mkv" 50 100 50 none none rowA
    (by decide) (by decide) (by decide) (by decide)).1

theorem hasCols_of_subset (cols a b : List String) (h : hasCols cols a = true)
    (hsub : ∀ c ∈ b, c ∈ a) : hasCols cols b = true := by
  simp only [hasCols, List.all_eq_true] at h ⊢
  exact fun c hc => h c (hsub c hc)

theorem ssOk_of_subset (st : Store) (a b : List String) (h : ssOk st a = true)
    (hsub : ∀ c ∈ b, c ∈ a) : ssOk st b = true := by
  simp only [ssOk, Bool.and_eq_true] at h ⊢
  exact ⟨h.1, hasCols_of_subset _ _ _ h.2 hsub⟩

/-- C5: set_intro_markers rejects any call with negative start, negative
end, or end not greater than start, returning failure with the store left
exactly as it was; when validation passes on a store with the current
columns, it either appends a default-valued row carrying only the two
intro markers (when no row for the key exists) or rewrites the table with
only the intro_start and intro_end fields of the keyed row replaced,
every other column of every row untouched. -/
theorem set_intro_markers_spec (st : Store) (pfx sfx : String) (s e : Int) :
    ((s < 0 ∨ e < 0 ∨ e ≤ s) → set_intro_markers st pfx sfx s e = (st, false)) ∧
    (0 ≤ s → 0 ≤ e → s < e →
      ssOk st ["series_prefix", "series_suffix", "autoplay", "skip_intro", "skip_outro",
               "intro_start", "intro_end"] = true →
      ((series_settings_exist st pfx sfx = false →
        set_intro_markers st pfx sfx s e =
          ({ st with series := st.series ++
              [{ series_pfx := pfx, series_suffix := sfx, autoplay := 0, skip_intro := 0,
                 skip_outro := 0, intro_start := some s, intro_end := some e,
                 credits_duration := none, descr := none, outro_start := none }] }, true)) ∧
       (series_settings_exist st pfx sfx = true →
        set_intro_markers st pfx sfx s e =
          ({ st with series := st.series.map (fun r =>
              if r.series_pfx == pfx && r.series_suffix == sfx then
                { r with intro_start := some s, intro_end := some e }
              else r) }, true)))) := by
  constructor
  · intro h
    rcases h with h | h | h
    · simp [set_intro_markers, Or.inl h]
    · simp [set_intro_markers, Or.inr h]
    · by_cases h0 : s < 0 ∨ e < 0
      · simp [set_intro_markers, h0]
      · simp [set_intro_markers, h0, h]
  · intro hs he hse hok
    have h1 : ¬ (s < 0 ∨ e < 0) := by omega
    have h2 : ¬ (e ≤ s) := by omega
    have hok4 : ssOk st ["intro_start", "intro_end", "series_prefix", "series_suffix"] = true :=
      ssOk_of_subset st _ _ hok (by intro c hc; fin_cases hc <;> simp)
    constructor
    · intro hne
      simp [set_intro_markers, h1, h2, hne, hok]
    · intro hex
      simp [set_intro_markers, h1, h2, hex, hok4]

/-- C5 witness: validation failures leave the fresh store untouched, a
valid call creates the default row, and a second valid call on the
existing row updates only the intro markers. -/
theorem set_intro_markers_spec_witness :
    set_intro_markers freshStore "p" "s" 20 10 = (freshStore, false) ∧
    set_intro_markers freshStore "p" "s" (-1) 20 = (freshStore, false) ∧
    set_intro_markers freshStore "p" "s" 10 20 = ({ freshStore with series := [introRow] }, true) ∧
    set_intro_markers introStore "p" "s" 11 21 =
      ({ introStore with series :=
          [{ introRow with intro_start := some 11, intro_end := some 21 }] }, true) := by
  refine ⟨?_, ?_, ?_, ?_⟩
  · exact (set_intro_markers_spec freshStore "p" "s" 20 10).1 (Or.inr (Or.inr (by omega)))
  · exact (set_intro_markers_spec freshStore "p" "s" (-1) 20).1 (Or.inl (by omega))
  · exact (((set_intro_markers_spec freshStore "p" "s" 10 20).2 (by omega) (by omega)
      (by omega) (by decide)).1 (by decide)).trans (by decide)
  · exact (((set_intro_markers_spec introStore "p" "s" 11 21).2 (by omega) (by omega)
      (by omega) (by decide)).2 (by decide)).trans (by decide)

theorem createPlayback_seriesPart (st : Store) :
    (createPlayback st).seriesExists = st.seriesExists ∧
    (createPlayback st).seriesCols = st.seriesCols ∧
    (createPlayback st).series = st.series := by
  unfold createPlayback; split <;> exact ⟨rfl, rfl, rfl⟩

theorem migratePlayback_seriesPart (st : Store) :
    (migratePlayback st).seriesExists = st.seriesExists ∧
    (migratePlayback st).seriesCols = st.seriesCols ∧
    (migratePlayback st).series = st.series := by
  unfold migratePlayback; split <;> exact ⟨rfl, rfl, rfl⟩

theorem createSeries_playbackPart (st : Store) :
    (createSeries st).playbackExists = st.playbackExists ∧
    (createSeries st).playbackCols = st.playbackCols ∧
    (createSeries st).playback = st.playback := by
  unfold createSeries; split <;> exact ⟨rfl, rfl, rfl⟩

theorem migrateSeries_playbackPart (st : Store) :
    (migrateSeries st).playbackExists = st.playbackExists ∧
    (migrateSeries st).playbackCols = st.playbackCols ∧
    (migrateSeries st).playback = st.playback := by
  unfold migrateSeries; split <;> exact ⟨rfl, rfl, rfl⟩

theorem createPlayback_post (st : Store) : (createPlayback st).playbackExists = true := by
  unfold createPlayback; split
  · assumption
  · rfl

theorem migratePlayback_post (st : Store) :
    "outro_triggered" ∈ (migratePlayback st).playbackCols := by
  unfold migratePlayback; split
  · assumption
  · simp

theorem migratePlayback_exists (st : Store) :
    (migratePlayback st).playbackExists = st.playbackExists := by
  unfold migratePlayback; split <;> rfl

theorem createSeries_post (st : Store) : (createSeries st).seriesExists = true := by
  unfold createSeries; split
  · assumption
  · rfl

theorem migrateSeries_post (st : Store) :
    "credits_duration" ∈ (migrateSeries st).seriesCols := by
  unfold migrateSeries; split
  · assumption
  · simp

theorem migrateSeries_exists (st : Store) :
    (migrateSeries st).seriesExists = st.seriesExists := by
  unfold migrateSeries; split <;> rfl

theorem createPlayback_id (st : Store) (h : st.playbackExists = true) :
    createPlayback st = st := by
  unfold createPlayback; simp [h]

theorem migratePlayback_id (st : Store) (h : "outro_triggered" ∈ st.playbackCols) :
    migratePlayback st = st := by
  unfold migratePlayback; simp [h]

theorem createSeries_id (st : Store) (h : st.seriesExists = true) :
    createSeries st = st := by
  unfold createSeries; simp [h]

theorem migrateSeries_id (st : Store) (h : "credits_duration" ∈ st.seriesCols) :
    migrateSeries st = st := by
  unfold migrateSeries; simp [h]

/-- The playback column list of the legacy 1.0.0 CREATE TABLE (no status,
no outro_triggered). -/
def legacyPlaybackCols : List String :=
  ["filename", "position", "duration", "percent",
   "series_prefix", "series_suffix", "description"]

/-- The series_settings column list of the legacy 1.0.0 CREATE TABLE
(outro_start instead of credits_duration). -/
def legacySeriesCols : List String :=
  ["series_prefix", "series_suffix", "autoplay", "skip_intro", "skip_outro",
   "intro_start", "intro_end", "outro_start", "description"]

/-- A store whose playback table has the legacy 1.0.0 shape. -/
def legacyPlaybackStore : Store :=
  { blankStore with playbackExists := true, playbackCols := legacyPlaybackCols }

/-- A store whose series_settings table has the legacy 1.0.0 shape. -/
def legacySeriesStore : Store :=
  { blankStore with seriesExists := true, seriesCols := legacySeriesCols }

/-- C9: init_db is an idempotent additive migration. Running it a second
time on any store changes nothing and still reports success; it always
reports success; on a store whose playback table lacks the newer
outro_triggered column it appends that column, every existing row taking
the default 0 and every other field of every row kept; on a store whose
series_settings table lacks the newer credits_duration column it appends
that column, every existing row taking the default NULL and every other
field of every row kept. -/
theorem init_db_idempotent_additive :
    (∀ st : Store, init_db (init_db st).1 = ((init_db st).1, true)) ∧
    (∀ st : Store, (init_db st).2 = true) ∧
    (∀ st : Store, st.playbackExists = true → "outro_triggered" ∉ st.playbackCols →
      (init_db st).1.playbackCols = st.playbackCols ++ ["outro_triggered"] ∧
      (init_db st).1.playback = st.playback.map (fun r => { r with outro_triggered := 0 })) ∧
    (∀ st : Store, st.seriesExists = true → "credits_duration" ∉ st.seriesCols →
      (init_db st).1.seriesCols = st.seriesCols ++ ["credits_duration"] ∧
      (init_db st).1.series = st.series.map (fun r => { r with credits_duration := none })) := by
  have hpbE : ∀ st : Store, (init_db st).1.playbackExists = true := by
    intro st
    show (migrateSeries (createSeries (migratePlayback (createPlayback st)))).playbackExists = true
    rw [(migrateSeries_playbackPart _).1, (createSeries_playbackPart _).1,
        migratePlayback_exists, createPlayback_post]
  have hpbC : ∀ st : Store, "outro_triggered" ∈ (init_db st).1.playbackCols := by
    intro st
    show "outro_triggered" ∈
      (migrateSeries (createSeries (migratePlayback (createPlayback st)))).playbackCols
    rw [(migrateSeries_playbackPart _).2.1, (createSeries_playbackPart _).2.1]
    exact migratePlayback_post _
  have hssE : ∀ st : Store, (init_db st).1.seriesExists = true := by
    intro st
    show (migrateSeries (createSeries (migratePlayback (createPlayback st)))).seriesExists = true
    rw [migrateSeries_exists, createSeries_post]
  have hssC : ∀ st : Store, "credits_duration" ∈ (init_db st).1.seriesCols := by
    intro st
    exact migrateSeries_post _
  refine ⟨?_, fun st => rfl, ?_, ?_⟩
  · intro st
    show (migrateSeries (createSeries (migratePlayback (createPlayback (init_db st).1))), true) =
      ((init_db st).1, true)
    rw [createPlayback_id _ (hpbE st), migratePlayback_id _ (hpbC st),
        createSeries_id _ (hssE st), migrateSeries_id _ (hssC st)]
  · intro st h1 h2
    show (migrateSeries (createSeries (migratePlayback (createPlayback st)))).playbackCols =
        st.playbackCols ++ ["outro_triggered"] ∧
      (migrateSeries (createSeries (migratePlayback (createPlayback st)))).playback =
        st.playback.map (fun r => { r with outro_triggered := 0 })
    rw [(migrateSeries_playbackPart _).2.1, (createSeries_playbackPart _).2.1,
        (migrateSeries_playbackPart _).2.2, (createSeries_playbackPart _).2.2,
        createPlayback_id _ h1]
    unfold migratePlayback
    simp [h2]
  · intro st h1 h2
    have hcp := createPlayback_seriesPart st
    have hmp := migratePlayback_seriesPart (createPlayback st)
    have hE : (migratePlayback (createPlayback st)).seriesExists = true := by
      rw [hmp.1, hcp.1]; exact h1
    have hC : (migratePlayback (createPlayback st)).seriesCols = st.seriesCols := by
      rw [hmp.2.1, hcp.2.1]
    have hS : (migratePlayback (createPlayback st)).series = st.series := by
      rw [hmp.2.2, hcp.2.2]
    show (migrateSeries (createSeries (migratePlayback (createPlayback st)))).seriesCols =
        st.seriesCols ++ ["credits_duration"] ∧
      (migrateSeries (createSeries (migratePlayback (createPlayback st)))).series =
        st.series.map (fun r => { r with credits_duration := none })
    rw [createSeries_id _ hE]
    unfold migrateSeries
    rw [hC, hS]
    simp [h2]

/-- C9 witness: a second initialization of the fresh store is a no-op, and
the migrations fire on legacy-shaped stores, here the 1.0.0 playback table
without outro_triggered and the 1.0.0 series_settings table without
credits_duration (but with outro_start). -/
theorem init_db_idempotent_additive_witness :
    init_db freshStore = (freshStore, true) ∧
    (init_db legacyPlaybackStore).1.playbackCols =
      legacyPlaybackCols ++ ["outro_triggered"] ∧
    (init_db legacySeriesStore).1.seriesCols =
      legacySeriesCols ++ ["credits_duration"] := by
  refine ⟨init_db_idempotent_additive.1 blankStore, ?_, ?_⟩
  · exact (init_db_idempotent_additive.2.2.1 _ rfl (by decide)).1
  · exact (init_db_idempotent_additive.2.2.2 _ rfl (by decide)).1

theorem dictGet_append_of_hasKey (d : List (String × Option Int)) (x : String × Option Int)
    (k : String) (h : dictHasKey d k = true) : dictGet (d ++ [x]) k = dictGet d k := by
  induction d with
  | nil => simp [dictHasKey] at h
  | cons a d ih =>
    by_cases ha : a.1 == k
    · simp [dictGet, List.find?, ha]
    · simp only [dictHasKey, List.any_cons, ha, Bool.false_or] at h
      simp only [dictGet, List.cons_append, List.find?, ha]
      exact ih h

theorem dictGet_append_self (d : List (String × Option Int)) (k : String) (v : Option Int)
    (h : dictHasKey d k = false) : dictGet (d ++ [(k, v)]) k = some v := by
  induction d with
  | nil => simp [dictGet, List.find?]
  | cons a d ih =>
    simp only [dictHasKey, List.any_cons, Bool.or_eq_false_iff] at h
    simp only [dictGet, List.cons_append, List.find?, h.1]
    exact ih h.2

theorem dictGet_append_ne (d : List (String × Option Int)) (b k : String) (v : Option Int)
    (h : (b == k) = false) : dictGet (d ++ [(b, v)]) k = dictGet d k := by
  induction d with
  | nil => simp [dictGet, List.find?, h]
  | cons a d ih =>
    by_cases ha : a.1 == k
    · simp [dictGet, List.find?, ha]
    · simp only [dictGet, List.cons_append, List.find?, ha]
      exact ih

theorem mapReplace_get_self (d : List (String × Option Int)) (k : String) (v : Option Int)
    (h : (d.any fun kv => kv.1 == k) = true) :
    dictGet (d.map (fun kv => if kv.1 == k then (k, v) else kv)) k = some v := by
  induction d with
  | nil => simp at h
  | cons a d ih =>
    by_cases ha : (a.1 == k) = true
    · simp only [List.map_cons, if_pos ha, dictGet]
      rw [List.find?_cons_of_pos _ (by simp)]
      rfl
    · simp only [List.any_cons, ha, Bool.false_or] at h
      simp only [List.map_cons, if_neg ha, dictGet]
      rw [List.find?_cons_of_neg _ (by simpa using ha)]
      exact ih h

theorem mapReplace_get_other (d : List (String × Option Int)) (b k : String) (v : Option Int)
    (hbk : (b == k) = false) :
    dictGet (d.map (fun kv => if kv.1 == b then (b, v) else kv)) k = dictGet d k := by
  induction d with
  | nil => rfl
  | cons a d ih =>
    by_cases ha : (a.1 == b) = true
    · have ha2 : (a.1 == k) = false := by
        have h1 : a.1 = b := by simpa using ha
        simpa [h1] using hbk
      simp only [List.map_cons, if_pos ha, dictGet]
      rw [List.find?_cons_of_neg _ (by simpa using hbk),
          List.find?_cons_of_neg _ (by simpa using ha2)]
      exact ih
    · simp only [List.map_cons, if_neg ha, dictGet]
      by_cases ha2 : (a.1 == k) = true
      · rw [List.find?_cons_of_pos _ (by simpa using ha2),
            List.find?_cons_of_pos _ (by simpa using ha2)]
      · rw [List.find?_cons_of_neg _ (by simpa using ha2),
            List.find?_cons_of_neg _ (by simpa using ha2)]
        exact ih

theorem dictSet_get_self (d : List (String × Option Int)) (k : String) (v : Option Int) :
    dictGet (dictSet d k v) k = some v := by
  unfold dictSet
  by_cases h : (d.any fun kv => kv.1 == k) = true
  · simpa [h] using mapReplace_get_self d k v h
  · simp only [h, if_false]
    exact dictGet_append_self d k v (by simp only [dictHasKey]; exact Bool.eq_false_iff.mpr h)

theorem dictSet_get_other (d : List (String × Option Int)) (b k : String) (v : Option Int)
    (hbk : (b == k) = false) : dictGet (dictSet d b v) k = dictGet d k := by
  unfold dictSet
  by_cases h : (d.any fun kv => kv.1 == b) = true
  · simpa [h] using mapReplace_get_other d b k v hbk
  · simp only [h, if_false]
    exact dictGet_append_ne d b k v hbk

theorem dictHasKey_of_get (d : List (String × Option Int)) (k : String) (w : Option Int)
    (h : dictGet d k = some w) : dictHasKey d k = true := by
  induction d with
  | nil => simp [dictGet] at h
  | cons a d ih =>
    by_cases ha : (a.1 == k) = true
    · simp [dictHasKey, ha]
    · simp only [dictGet] at h
      rw [List.find?_cons_of_neg _ (by simpa using ha)] at h
      simp only [dictHasKey, List.any_cons, ha, Bool.false_or]
      exact ih h

theorem dictSet_hasKey_self (d : List (String × Option Int)) (k : String) (v : Option Int) :
    dictHasKey (dictSet d k v) k = true :=
  dictHasKey_of_get _ _ v (dictSet_get_self d k v)

theorem dictHasKey_of_get_general (d : List (String × Option Int)) (k : String)
    (h : (dictGet d k).isSome = true) : dictHasKey d k = true := by
  rcases Option.isSome_iff_exists.mp h with ⟨w, hw⟩
  exact dictHasKey_of_get d k w hw

theorem dictGet_isSome_of_hasKey (d : List (String × Option Int)) (k : String)
    (h : dictHasKey d k = true) : (dictGet d k).isSome = true := by
  induction d with
  | nil => simp [dictHasKey] at h
  | cons a d ih =>
    by_cases ha : (a.1 == k) = true
    · simp only [dictGet]
      rw [List.find?_cons_of_pos _ (by simpa using ha)]
      rfl
    · simp only [dictHasKey, List.any_cons, ha, Bool.false_or] at h
      simp only [dictGet]
      rw [List.find?_cons_of_neg _ (by simpa using ha)]
      exact ih h

theorem dictSet_hasKey_other (d : List (String × Option Int)) (b k : String) (v : Option Int)
    (hbk : (b == k) = false) : dictHasKey (dictSet d b v) k = dictHasKey d k := by
  by_cases h : dictHasKey d k = true
  · rw [h]
    refine dictHasKey_of_get_general _ _ ?_
    rw [dictSet_get_other d b k v hbk]
    exact dictGet_isSome_of_hasKey d k h
  · have h2 : dictHasKey d k = false := by simpa using h
    rw [h2]
    by_contra hc
    have hc2 : dictHasKey (dictSet d b v) k = true := by simpa using hc
    have := dictGet_isSome_of_hasKey _ _ hc2
    rcases Option.isSome_iff_exists.mp this with ⟨w, hw⟩
    rw [dictSet_get_other d b k v hbk] at hw
    rw [dictHasKey_of_get d k w hw] at h2
    exact absurd h2 (by simp)

theorem dictHasKey_append_one (d : List (String × Option Int)) (x : String × Option Int)
    (k : String) : dictHasKey (d ++ [x]) k = (dictHasKey d k || (x.1 == k)) := by
  simp [dictHasKey, List.any_append]

theorem basenameAux_append_sep (xs g acc : List Char) :
    basenameAux (xs ++ '/' :: g) acc = basenameAux g [] := by
  induction xs generalizing acc with
  | nil => simp [basenameAux]
  | cons c cs ih => by_cases h : c = '/' <;> simp [basenameAux, h, ih]

theorem basenameAux_no_sep (g : List Char) (hg : ('/' : Char) ∉ g) (acc : List Char) :
    basenameAux g acc = acc ++ g := by
  induction g generalizing acc with
  | nil => simp [basenameAux]
  | cons c cs ih =>
    have hc : ¬ (c = '/') := fun h => hg (h ▸ List.mem_cons_self c cs)
    have htail : ('/' : Char) ∉ cs := fun h => hg (List.mem_cons_of_mem c h)
    simp [basenameAux, hc, ih htail]

theorem basename_join (dir g : String) (hg : ('/' : Char) ∉ g.data) :
    basename (dir ++ "/" ++ g) = g := by
  unfold basename
  have hdata : (dir ++ "/" ++ g).data = dir.data ++ '/' :: g.data := by
    simp [String.data_append]
  rw [hdata, basenameAux_append_sep, basenameAux_no_sep g.data hg]
  simp only [List.nil_append]

theorem fill_keep (fs : List String) (d : List (String × Option Int)) (k : String)
    (h : dictHasKey d k = true) :
    dictGet (fs.foldl (fun d f => if dictHasKey d f then d else d ++ [(f, some 0)]) d) k =
      dictGet d k ∧
    dictHasKey (fs.foldl (fun d f => if dictHasKey d f then d else d ++ [(f, some 0)]) d) k =
      true := by
  induction fs generalizing d with
  | nil => exact ⟨rfl, h⟩
  | cons f fs ih =>
    simp only [List.foldl_cons]
    by_cases hf : dictHasKey d f = true
    · simp only [hf, if_true]
      exact ih d h
    · have hf2 : dictHasKey d f = false := Bool.eq_false_iff.mpr hf
      simp only [hf2, Bool.false_eq_true, if_false]
      have hk2 : dictHasKey (d ++ [(f, some 0)]) k = true := by
        rw [dictHasKey_append_one]
        simp [h]
      refine ⟨?_, (ih _ hk2).2⟩
      rw [(ih _ hk2).1]
      exact dictGet_append_of_hasKey d _ k h

theorem fill_adds (fs : List String) (d : List (String × Option Int)) (k : String)
    (h : k ∈ fs) :
    dictHasKey (fs.foldl (fun d f => if dictHasKey d f then d else d ++ [(f, some 0)]) d) k =
      true := by
  induction fs generalizing d with
  | nil => simp at h
  | cons f fs ih =>
    simp only [List.foldl_cons]
    rcases List.mem_cons.mp h with rfl | h2
    · by_cases hf : dictHasKey d k = true
      · simp only [hf, if_true]
        exact (fill_keep fs d k hf).2
      · have hf2 : dictHasKey d k = false := Bool.eq_false_iff.mpr hf
        simp only [hf2, Bool.false_eq_true, if_false]
        have hk2 : dictHasKey (d ++ [(k, some 0)]) k = true := by
          rw [dictHasKey_append_one]
          simp
        exact (fill_keep fs _ k hk2).2
    · by_cases hf : dictHasKey d f = true
      · simp only [hf, if_true]
        exact ih d h2
      · have hf2 : dictHasKey d f = false := Bool.eq_false_iff.mpr hf
        simp only [hf2, Bool.false_eq_true, if_false]
        exact ih _ h2

theorem fill_zero (fs : List String) (d : List (String × Option Int)) (k : String)
    (h : k ∈ fs) (hm : dictHasKey d k = false) :
    dictGet (fs.foldl (fun d f => if dictHasKey d f then d else d ++ [(f, some 0)]) d) k =
      some (some 0) := by
  induction fs generalizing d with
  | nil => simp at h
  | cons f fs ih =>
    simp only [List.foldl_cons]
    by_cases hkf : k = f
    · subst hkf
      simp only [hm, Bool.false_eq_true, if_false]
      have hk2 : dictHasKey (d ++ [(k, some 0)]) k = true := by
        rw [dictHasKey_append_one]
        simp
      rw [(fill_keep fs _ k hk2).1]
      exact dictGet_append_self d k (some 0) hm
    · have h2 : k ∈ fs := by
        rcases List.mem_cons.mp h with h3 | h3
        · exact absurd h3 hkf
        · exact h3
      by_cases hf : dictHasKey d f = true
      · simp only [hf, if_true]
        exact ih d h2 hm
      · have hf2 : dictHasKey d f = false := Bool.eq_false_iff.mpr hf
        simp only [hf2, Bool.false_eq_true, if_false]
        refine ih _ h2 ?_
        rw [dictHasKey_append_one, hm]
        simp only [Bool.false_or]
        exact beq_eq_false_iff_ne.mpr (fun hc => hkf hc.symm)

theorem matchesFold_absent (rows : List PlaybackRow) (d : List (String × Option Int))
    (k : String) (h : ∀ r ∈ rows, basename r.filename ≠ k) :
    dictHasKey (rows.foldl (fun d r => dictSet d (basename r.filename) r.percent) d) k =
      dictHasKey d k ∧
    dictGet (rows.foldl (fun d r => dictSet d (basename r.filename) r.percent) d) k =
      dictGet d k := by
  induction rows generalizing d with
  | nil => exact ⟨rfl, rfl⟩
  | cons r rows ih =>
    simp only [List.foldl_cons]
    have hb : (basename r.filename == k) = false :=
      beq_eq_false_iff_ne.mpr (h r (List.mem_cons_self r rows))
    have ih2 := ih (dictSet d (basename r.filename) r.percent)
      (fun q hq => h q (List.mem_cons_of_mem r hq))
    rw [ih2.1, ih2.2, dictSet_hasKey_other d _ k _ hb, dictSet_get_other d _ k _ hb]
    exact ⟨rfl, rfl⟩

theorem matchesFold_value (rows : List PlaybackRow) (d : List (String × Option Int))
    (k : String) (v : Option Int)
    (hall : ∀ r ∈ rows, basename r.filename = k → r.percent = v)
    (hex : ∃ r ∈ rows, basename r.filename = k) :
    dictGet (rows.foldl (fun d r => dictSet d (basename r.filename) r.percent) d) k =
      some v := by
  induction rows generalizing d with
  | nil => simp at hex
  | cons r rows ih =>
    simp only [List.foldl_cons]
    by_cases hb : basename r.filename = k
    · have hv : r.percent = v := hall r (List.mem_cons_self r rows) hb
      by_cases hex2 : ∃ q ∈ rows, basename q.filename = k
      · exact ih _ (fun q hq => hall q (List.mem_cons_of_mem r hq)) hex2
      · push_neg at hex2
        rw [(matchesFold_absent rows _ k hex2).2, hb, hv]
        exact dictSet_get_self d k v
    · have hex2 : ∃ q ∈ rows, basename q.filename = k := by
        rcases hex with ⟨q, hq, hqk⟩
        rcases List.mem_cons.mp hq with rfl | hq2
        · exact absurd hqk hb
        · exact ⟨q, hq2, hqk⟩
      exact ih _ (fun q hq => hall q (List.mem_cons_of_mem r hq)) hex2

theorem errFold_keep (fs : List String) (d : List (String × Option Int)) (k : String)
    (hd : dictGet d k = some (some 0)) :
    dictGet (fs.foldl (fun d f => dictSet d f (some 0)) d) k = some (some 0) := by
  induction fs generalizing d with
  | nil => exact hd
  | cons f fs ih =>
    simp only [List.foldl_cons]
    by_cases hf : f = k
    · subst hf
      exact ih _ (dictSet_get_self d f (some 0))
    · refine ih _ ?_
      rw [dictSet_get_other d f k _ (beq_eq_false_iff_ne.mpr hf)]
      exact hd

theorem errFold_get (fs : List String) (d : List (String × Option Int)) (k : String)
    (h : k ∈ fs) :
    dictGet (fs.foldl (fun d f => dictSet d f (some 0)) d) k = some (some 0) := by
  induction fs generalizing d with
  | nil => simp at h
  | cons f fs ih =>
    simp only [List.foldl_cons]
    rcases List.mem_cons.mp h with rfl | h2
    · exact errFold_keep fs _ k (dictSet_get_self d k (some 0))
    · exact ih _ h2

theorem row_eq_of_filename (l : List PlaybackRow)
    (hnd : (l.map (fun r => r.filename)).Nodup) (q r : PlaybackRow)
    (hq : q ∈ l) (hr : r ∈ l) (h : q.filename = r.filename) : q = r := by
  induction l with
  | nil => simp at hq
  | cons a t ih =>
    simp only [List.map_cons, List.nodup_cons] at hnd
    rcases List.mem_cons.mp hq with rfl | hq2
    · rcases List.mem_cons.mp hr with rfl | hr2
      · rfl
      · exact absurd (List.mem_map.mpr ⟨r, hr2, h.symm⟩) hnd.1
    · rcases List.mem_cons.mp hr with rfl | hr2
      · exact absurd (List.mem_map.mpr ⟨q, hq2, h⟩) hnd.1
      · exact ih hnd.2 hq2 hr2

theorem batchFold_result_absent (matched : List PlaybackRow) (fs : List String) (f : String)
    (hf : f ∈ fs) (habs : ∀ r ∈ matched, basename r.filename ≠ f) :
    dictGet (fs.foldl (fun d f => if dictHasKey d f then d else d ++ [(f, some 0)])
      (matched.foldl (fun d r => dictSet d (basename r.filename) r.percent) [])) f =
      some (some 0) := by
  have hkey := (matchesFold_absent matched [] f habs).1
  exact fill_zero fs _ f hf (by rw [hkey]; rfl)

theorem batchFold_result_value (matched : List PlaybackRow) (fs : List String) (f : String)
    (v : Option Int) (hall : ∀ q ∈ matched, basename q.filename = f → q.percent = v)
    (hex : ∃ q ∈ matched, basename q.filename = f) :
    dictGet (fs.foldl (fun d f => if dictHasKey d f then d else d ++ [(f, some 0)])
      (matched.foldl (fun d r => dictSet d (basename r.filename) r.percent) [])) f =
      some v := by
  have hd1 := matchesFold_value matched [] f v hall hex
  rw [(fill_keep fs _ f (dictHasKey_of_get _ f _ hd1)).1]
  exact hd1

/-- A store whose playback table holds one record for the path d/x/v.mkv
with percent 42 (as written by save_playback of that path). -/
def batchStore : Store :=
  { freshStore with playback :=
      [{ filename := "d/x/v.mkv", position := some 1, duration := some 100,
         percent := some 42, status := some "partial", series_pfx := none,
         series_suffix := none, descr := none, outro_triggered := 0 }] }

/-- C6 counterexample: requesting x/v.mkv and v.mkv in directory d, the
joined path of v.mkv (d/v.mkv) has no stored record, yet the returned map
carries 42 for v.mkv, not 0: the stored record for d/x/v.mkv is keyed back
by its basename v.mkv, which collides with the other requested name. -/
theorem get_playback_batch_zero_fill_fails :
    dictGet (get_playback_batch batchStore "d" ["x/v.mkv", "v.mkv"]) "v.mkv" =
      some (some 42) ∧
    batchStore.playback.all (fun r => !(r.filename == "d" ++ "/" ++ "v.mkv")) = true := by
  decide

/-- C6 (amended): provided no requested filename contains a slash,
getPlaybackBatch returns a map with an entry for every requested filename;
a requested filename whose joined path has no stored record maps to 0; and
(when the table is readable and filenames are unique in it) a requested
filename whose joined path is stored maps to that record's percent. -/
theorem get_playback_batch_complete (st : Store) (dir : String) (filenames : List String)
    (hslash : ∀ f ∈ filenames, ('/' : Char) ∉ f.data) :
    (∀ f ∈ filenames, dictHasKey (get_playback_batch st dir filenames) f = true) ∧
    (∀ f ∈ filenames, (∀ r ∈ st.playback, r.filename ≠ dir ++ "/" ++ f) →
      dictGet (get_playback_batch st dir filenames) f = some (some 0)) ∧
    (pbOk st ["filename", "percent"] = true →
      (st.playback.map (fun r => r.filename)).Nodup →
      ∀ f ∈ filenames, ∀ r ∈ st.playback, r.filename = dir ++ "/" ++ f →
        dictGet (get_playback_batch st dir filenames) f = some r.percent) := by
  by_cases hemp : filenames.isEmpty = true
  · have hnil : filenames = [] := by simpa using hemp
    subst hnil
    refine ⟨by simp, by simp, ?_⟩
    intro _ _ f hf
    simp at hf
  · have hempf : filenames.isEmpty = false := Bool.eq_false_iff.mpr hemp
    by_cases hg : pbOk st ["filename", "percent"] = true
    · refine ⟨?_, ?_, ?_⟩
      · intro f hf
        simp only [get_playback_batch, hempf, Bool.false_eq_true, if_false, hg, if_true]
        exact fill_adds _ _ f hf
      · intro f hf hnot
        simp only [get_playback_batch, hempf, Bool.false_eq_true, if_false, hg, if_true]
        apply batchFold_result_absent _ _ f hf
        intro r hr
        rcases List.mem_filter.mp hr with ⟨hrpb, hrc⟩
        rcases List.mem_map.mp (List.elem_iff.mp hrc) with ⟨g, hgmem, hgeq⟩
        rw [← hgeq, basename_join dir g (hslash g hgmem)]
        intro hgf
        subst hgf
        exact hnot r hrpb hgeq.symm
      · intro hg2 hnd f hf r hr hrf
        simp only [get_playback_batch, hempf, Bool.false_eq_true, if_false, hg, if_true]
        have hbase : basename r.filename = f := by
          rw [hrf]
          exact basename_join dir f (hslash f hf)
        apply batchFold_result_value _ _ f r.percent
        · intro q hq hqb
          rcases List.mem_filter.mp hq with ⟨hqpb, hqc⟩
          rcases List.mem_map.mp (List.elem_iff.mp hqc) with ⟨g, hgmem, hgeq⟩
          have hbg : basename q.filename = g := by
            rw [← hgeq]
            exact basename_join dir g (hslash g hgmem)
          have hgf : g = f := hbg.symm.trans hqb
          have hqr : q.filename = r.filename := by
            rw [← hgeq, hgf, hrf]
          rw [row_eq_of_filename st.playback hnd q r hqpb hr hqr]
        · refine ⟨r, ?_, hbase⟩
          refine List.mem_filter.mpr ⟨hr, ?_⟩
          refine List.elem_iff.mpr ?_
          rw [hrf]
          exact List.mem_map.mpr ⟨f, hf, rfl⟩
    · have hgf : pbOk st ["filename", "percent"] = false := Bool.eq_false_iff.mpr hg
      refine ⟨?_, ?_, ?_⟩
      · intro f hf
        simp only [get_playback_batch, hempf, Bool.false_eq_true, if_false, hgf, if_false]
        exact dictHasKey_of_get _ f (some 0) (errFold_get filenames [] f hf)
      · intro f hf _
        simp only [get_playback_batch, hempf, Bool.false_eq_true, if_false, hgf, if_false]
        exact errFold_get filenames [] f hf
      · intro hg2
        exact absurd hg2 hg

/-- The playback row for d/a.mkv with percent 10. -/
def rowD : PlaybackRow :=
  { filename := "d/a.mkv", position := some 5, duration := some 100, percent := some 10,
    status := some "partial", series_pfx := none, series_suffix := none, descr := none,
    outro_triggered := 0 }

/-- A store whose playback table holds only the row for d/a.mkv. -/
def storeD : Store := { freshStore with playback := [rowD] }

/-- C6 witness: on a store with a.mkv stored under directory d at percent
10, the batch for d with requests a.mkv and b.mkv carries an entry for
both, the stored 10 for a.mkv and the fill value 0 for b.mkv. -/
theorem get_playback_batch_complete_witness :
    dictHasKey (get_playback_batch storeD "d" ["a.mkv", "b.mkv"]) "b.mkv" = true ∧
    dictGet (get_playback_batch storeD "d" ["a.mkv", "b.mkv"]) "b.mkv" = some (some 0) ∧
    dictGet (get_playback_batch storeD "d" ["a.mkv", "b.mkv"]) "a.mkv" = some (some 10) := by
  refine ⟨?_, ?_, ?_⟩
  · exact (get_playback_batch_complete storeD "d" ["a.mkv", "b.mkv"] (by decide)).1 "b.mkv"
      (by decide)
  · exact (get_playback_batch_complete storeD "d" ["a.mkv", "b.mkv"] (by decide)).2.1 "b.mkv"
      (by decide) (by decide)
  · exact (get_playback_batch_complete storeD "d" ["a.mkv", "b.mkv"] (by decide)).2.2
      (by decide) (by decide) "a.mkv" (by decide) rowD (by decide) (by decide)

theorem sqlMax_eq_none (l : List Int) (h : sqlMax l = none) : l = [] := by
  cases l with
  | nil => rfl
  | cons p ps =>
    simp only [sqlMax] at h
    cases hs : sqlMax ps <;> rw [hs] at h <;> simp at h

theorem sqlMax_le (l : List Int) (m : Int) (h : sqlMax l = some m) :
    ∀ x ∈ l, x ≤ m := by
  induction l generalizing m with
  | nil => simp
  | cons p ps ih =>
    simp only [sqlMax] at h
    cases hs : sqlMax ps <;> rw [hs] at h
    · have hps : ps = [] := sqlMax_eq_none ps hs
      subst hps
      simp only [Option.some.injEq] at h
      subst h
      simp
    · rename_i m2
      simp only [Option.some.injEq] at h
      subst h
      intro x hx
      rcases List.mem_cons.mp hx with rfl | hx2
      · exact le_max_left x m2
      · exact le_trans (ih m2 hs x hx2) (le_max_right p m2)

theorem sqlMax_mem (l : List Int) (m : Int) (h : sqlMax l = some m) : m ∈ l := by
  induction l generalizing m with
  | nil => simp [sqlMax] at h
  | cons p ps ih =>
    simp only [sqlMax] at h
    cases hs : sqlMax ps <;> rw [hs] at h
    · simp only [Option.some.injEq] at h
      subst h
      simp
    · rename_i m2
      simp only [Option.some.injEq] at h
      subst h
      rcases max_choice p m2 with hm | hm
      · rw [hm]
        simp
      · rw [hm]
        exact List.mem_cons_of_mem p (ih m2 hs)

theorem head?_filter_decomp {α : Type} (p : α → Bool) (l : List α) (r : α)
    (h : (l.filter p).head? = some r) :
    ∃ l1 l2, l = l1 ++ r :: l2 ∧ p r = true ∧ ∀ x ∈ l1, p x = false := by
  induction l with
  | nil => simp at h
  | cons a t ih =>
    cases hpa : p a
    · rw [List.filter_cons_of_neg (by simp [hpa])] at h
      rcases ih h with ⟨l1, l2, ht, hpr, hall⟩
      refine ⟨a :: l1, l2, by rw [ht, List.cons_append], hpr, ?_⟩
      intro x hx
      rcases List.mem_cons.mp hx with rfl | hx2
      · exact hpa
      · exact hall x hx2
    · rw [List.filter_cons_of_pos hpa] at h
      simp only [List.head?_cons, Option.some.injEq] at h
      subst h
      exact ⟨[], t, rfl, hpa, by simp⟩

theorem getLast?_filter_decomp {α : Type} (p : α → Bool) (l : List α) (r : α)
    (h : (l.filter p).getLast? = some r) :
    ∃ l1 l2, l = l1 ++ r :: l2 ∧ p r = true ∧ ∀ x ∈ l2, p x = false := by
  have h2 : (l.reverse.filter p).head? = some r := by
    rw [List.filter_reverse, List.head?_reverse]
    exact h
  rcases head?_filter_decomp p l.reverse r h2 with ⟨l1, l2, heq, hpr, hall⟩
  have hl : l = l2.reverse ++ r :: l1.reverse := by
    have h3 : l = (l1 ++ r :: l2).reverse := by rw [← heq, List.reverse_reverse]
    rw [h3, List.reverse_append, List.reverse_cons, List.append_assoc]
    simp
  refine ⟨l2.reverse, l1.reverse, hl, hpr, ?_⟩
  intro x hx
  exact hall x (List.mem_reverse.mp hx)

theorem nodup_fst_of_shape (l : List (String × Option String × Option Int))
    (L : String → Option String) (M : String → Option Int)
    (hshape : ∀ e ∈ l, e = (e.1, L e.1, M e.1)) (hnd : l.Nodup) :
    (l.map (fun e => e.1)).Nodup := by
  refine hnd.map_on ?_
  intro x hx y hy hxy
  rw [hshape x hx, hshape y hy, hxy]

/-- C8: find_other_versions reports, for every distinct normalized suffix
sharing the prefix and differing from the normalized excluded suffix,
exactly one entry (the suffix component is duplicate-free, and a suffix
appears if and only if some stored row realizes it); the entry's filename
is the filename of the most recently inserted matching row (no later row
in insertion order matches that prefix and suffix); and the entry's
percent is the maximum percent over all rows of that prefix and suffix:
an upper bound on every stored percent there, itself attained by a row. -/
theorem find_other_versions_spec (st : Store) (pfx : String) (cur : Option String) :
    ((find_other_versions st pfx cur).map (fun e => e.1)).Nodup ∧
    (pbOk st ["series_prefix", "series_suffix", "filename", "percent"] = true →
      ∀ s : String,
        (∃ fno mp, (s, fno, mp) ∈ find_other_versions st pfx cur) ↔
        (s ≠ coalesceSuffix cur ∧ ∃ r ∈ st.playback, r.series_pfx = some pfx ∧
          coalesceSuffix r.series_suffix = s)) ∧
    (∀ s fno mp, (s, fno, mp) ∈ find_other_versions st pfx cur →
      ∃ fn l1 q l2, fno = some fn ∧ st.playback = l1 ++ q :: l2 ∧ q.filename = fn ∧
        q.series_pfx = some pfx ∧ coalesceSuffix q.series_suffix = s ∧
        ∀ x ∈ l2, ¬(x.series_pfx = some pfx ∧ coalesceSuffix x.series_suffix = s)) ∧
    (∀ s fno mp, (s, fno, mp) ∈ find_other_versions st pfx cur →
      (∀ r ∈ st.playback, r.series_pfx = some pfx → coalesceSuffix r.series_suffix = s →
        ∀ q : Int, r.percent = some q → ∃ m, mp = some m ∧ q ≤ m) ∧
      (∀ m : Int, mp = some m → ∃ r ∈ st.playback, r.series_pfx = some pfx ∧
        coalesceSuffix r.series_suffix = s ∧ r.percent = some m)) := by
  by_cases hg : pbOk st ["series_prefix", "series_suffix", "filename", "percent"] = true
  · refine ⟨?_, ?_, ?_, ?_⟩
    · simp only [find_other_versions, hg, if_true]
      refine nodup_fst_of_shape _ (fun s => last_filename st.playback pfx s)
        (fun s => max_percent st.playback pfx s) ?_ (List.nodup_dedup _)
      intro e he
      rcases List.mem_map.mp (List.mem_dedup.mp he) with ⟨r, hr, hre⟩
      rw [← hre]
    · intro _ s
      simp only [find_other_versions, hg, if_true]
      constructor
      · rintro ⟨fno, mp, hmem⟩
        rcases List.mem_map.mp (List.mem_dedup.mp hmem) with ⟨r, hr, hre⟩
        obtain ⟨h1, h2, h3⟩ :
            coalesceSuffix r.series_suffix = s ∧
            last_filename st.playback pfx (coalesceSuffix r.series_suffix) = fno ∧
            max_percent st.playback pfx (coalesceSuffix r.series_suffix) = mp := by
          simpa using hre
        rcases List.mem_filter.mp hr with ⟨hrpb, hpred⟩
        rw [Bool.and_eq_true] at hpred
        have hpfx : r.series_pfx = some pfx := beq_iff_eq.mp hpred.1
        have hneq : coalesceSuffix r.series_suffix ≠ coalesceSuffix cur := by
          have hb := hpred.2
          simp only [Bool.not_eq_true'] at hb
          exact beq_eq_false_iff_ne.mp hb
        exact ⟨h1 ▸ hneq, r, hrpb, hpfx, h1⟩
      · rintro ⟨hne, r, hr, hpfx, hsfx⟩
        refine ⟨last_filename st.playback pfx s, max_percent st.playback pfx s, ?_⟩
        refine List.mem_dedup.mpr (List.mem_map.mpr ⟨r, ?_, ?_⟩)
        · refine List.mem_filter.mpr ⟨hr, ?_⟩
          rw [Bool.and_eq_true]
          refine ⟨beq_iff_eq.mpr hpfx, ?_⟩
          simp only [Bool.not_eq_true']
          exact beq_eq_false_iff_ne.mpr (hsfx ▸ hne)
        · rw [hsfx]
    · intro s fno mp hmem
      simp only [find_other_versions, hg, if_true] at hmem
      rcases List.mem_map.mp (List.mem_dedup.mp hmem) with ⟨r, hr, hre⟩
      obtain ⟨h1, h2, h3⟩ :
          coalesceSuffix r.series_suffix = s ∧
          last_filename st.playback pfx (coalesceSuffix r.series_suffix) = fno ∧
          max_percent st.playback pfx (coalesceSuffix r.series_suffix) = mp := by
        simpa using hre
      rw [h1] at h2
      rcases List.mem_filter.mp hr with ⟨hrpb, hpred⟩
      rw [Bool.and_eq_true] at hpred
      have hrin : r ∈ versionRows st.playback pfx s := by
        refine List.mem_filter.mpr ⟨hrpb, ?_⟩
        rw [Bool.and_eq_true]
        exact ⟨hpred.1, beq_iff_eq.mpr h1⟩
      have hsome : (versionRows st.playback pfx s).getLast?.isSome :=
        List.getLast?_isSome.mpr (List.ne_nil_of_mem hrin)
      rcases Option.isSome_iff_exists.mp hsome with ⟨q, hq⟩
      have hfno : fno = some q.filename := by
        rw [← h2]
        simp [last_filename, hq]
      rcases getLast?_filter_decomp _ st.playback q (by simpa [versionRows] using hq)
        with ⟨l1, l2, hdec, hpq, hall⟩
      rw [Bool.and_eq_true] at hpq
      refine ⟨q.filename, l1, q, l2, hfno, hdec, rfl,
        beq_iff_eq.mp hpq.1, beq_iff_eq.mp hpq.2, ?_⟩
      rintro x hx ⟨hxp, hxs⟩
      have hxb : (x.series_pfx == some pfx && coalesceSuffix x.series_suffix == s) = true := by
        rw [Bool.and_eq_true]
        exact ⟨beq_iff_eq.mpr hxp, beq_iff_eq.mpr hxs⟩
      rw [hall x hx] at hxb
      exact absurd hxb (by simp)
    · intro s fno mp hmem
      simp only [find_other_versions, hg, if_true] at hmem
      rcases List.mem_map.mp (List.mem_dedup.mp hmem) with ⟨r, hr, hre⟩
      obtain ⟨h1, h2, h3⟩ :
          coalesceSuffix r.series_suffix = s ∧
          last_filename st.playback pfx (coalesceSuffix r.series_suffix) = fno ∧
          max_percent st.playback pfx (coalesceSuffix r.series_suffix) = mp := by
        simpa using hre
      rw [h1] at h3
      constructor
      · intro r2 hr2 hp2 hs2 q hq2
        have hq2in : q ∈ (versionRows st.playback pfx s).filterMap (fun r => r.percent) := by
          refine List.mem_filterMap.mpr ⟨r2, ?_, hq2⟩
          refine List.mem_filter.mpr ⟨hr2, ?_⟩
          rw [Bool.and_eq_true]
          exact ⟨beq_iff_eq.mpr hp2, beq_iff_eq.mpr hs2⟩
        cases hmp : sqlMax ((versionRows st.playback pfx s).filterMap (fun r => r.percent)) with
        | none =>
          rw [sqlMax_eq_none _ hmp] at hq2in
          simp at hq2in
        | some m =>
          refine ⟨m, ?_, sqlMax_le _ m hmp q hq2in⟩
          rw [← h3]
          simpa [max_percent] using hmp
      · intro m hm
        have hmax : sqlMax ((versionRows st.playback pfx s).filterMap (fun r => r.percent)) =
            some m := by
          have h4 : max_percent st.playback pfx s = some m := by rw [h3, hm]
          simpa [max_percent] using h4
        rcases List.mem_filterMap.mp (sqlMax_mem _ m hmax) with ⟨r2, hr2v, hr2p⟩
        rcases List.mem_filter.mp hr2v with ⟨hr2pb, hp2⟩
        rw [Bool.and_eq_true] at hp2
        exact ⟨r2, hr2pb, beq_iff_eq.mp hp2.1, beq_iff_eq.mp hp2.2, hr2p⟩
  · have hfov : find_other_versions st pfx cur = [] := by
      simp [find_other_versions, hg]
    refine ⟨by simp [hfov], ?_, by simp [hfov], by simp [hfov]⟩
    intro hg2
    exact absurd hg2 hg

/-- Playback row of the 720 version, percent 10. -/
def rowV1 : PlaybackRow :=
  { filename := "a1", position := some 0, duration := some 100, percent := some 10,
    status := some "partial", series_pfx := some "P", series_suffix := some "720",
    descr := none, outro_triggered := 0 }

/-- Playback row of the 720 version inserted later, percent 50. -/
def rowV2 : PlaybackRow := { rowV1 with filename := "a2", percent := some 50 }

/-- Playback row of the excluded 1080 version. -/
def rowV3 : PlaybackRow :=
  { rowV1 with filename := "b", percent := some 30, series_suffix := some "1080" }

/-- Store with two 720 rows and one 1080 row under prefix P. -/
def storeV : Store := { freshStore with playback := [rowV1, rowV2, rowV3] }

/-- C8 witness: excluding 1080 under prefix P, the 720 version is
reported; its percent 50 bounds the stored 10 and is attained by a row,
and its filename is the last-inserted 720 row. -/
theorem find_other_versions_spec_witness :
    (∃ fno mp, ("720", fno, mp) ∈ find_other_versions storeV "P" (some "1080")) ∧
    (∃ m, (some 50 : Option Int) = some m ∧ (10 : Int) ≤ m) ∧
    (∃ r ∈ storeV.playback, r.series_pfx = some "P" ∧
      coalesceSuffix r.series_suffix = "720" ∧ r.percent = some (50 : Int)) ∧
    (∃ fn l1 q l2, (some "a2" : Option String) = some fn ∧
      storeV.playback = l1 ++ q :: l2 ∧ q.filename = fn ∧ q.series_pfx = some "P" ∧
      coalesceSuffix q.series_suffix = "720" ∧
      ∀ x ∈ l2, ¬(x.series_pfx = some "P" ∧ coalesceSuffix x.series_suffix = "720")) := by
  refine ⟨?_, ?_, ?_, ?_⟩
  · exact ((find_other_versions_spec storeV "P" (some "1080")).2.1 (by decide) "720").mpr
      ⟨by decide, rowV1, by decide, by decide, by decide⟩
  · exact ((find_other_versions_spec storeV "P" (some "1080")).2.2.2 "720" (some "a2")
      (some 50) (by decide)).1 rowV1 (by decide) (by decide) (by decide) 10 (by decide)
  · exact ((find_other_versions_spec storeV "P" (some "1080")).2.2.2 "720" (some "a2")
      (some 50) (by decide)).2 50 rfl
  · exact (find_other_versions_spec storeV "P" (some "1080")).2.2.1 "720" (some "a2")
      (some 50) (by decide)
